import Mathlib

/-!
Shallow embedding of the custom memory allocator engine from
`src/memory_allocator.cpp` / `include/memory_allocator.hpp`
(`namespace CustomAllocator`, class `MemoryAllocator`).

The managed region is modelled by its length `heap_size` together with the
chain of blocks in address order.  The block chain is an embedded doubly
linked list in the source; since `free_list_` always points at the block at
`heap_start_` and the `next`/`prev` links always mirror address order, it is
modelled as a `List MemoryBlock` (a block's `next` is the following list
entry, its `prev` the preceding one).  Pointers handed to callers are the
byte offsets of a block's payload from `heap_start_`; the null pointer is
`Option.none`.  Byte contents of the region are modelled by `mem : Nat → Nat`
(offset to byte value); header bytes of the C++ layout are carried by the
block list instead, so `mem` is only meaningful on payload ranges.
`size_t` values are modelled as `Nat`; the two places where the claims
depend on 64-bit wraparound (`alignSize`, `my_calloc`'s overflow check)
reduce modulo `U64 = 2 ^ 64` explicitly, exactly as the hardware would.
-/

namespace CustomAllocator

/-- `MemoryAllocator::ALIGNMENT` (8 bytes). -/
def ALIGNMENT : Nat := 8

/-- `MemoryAllocator::MIN_BLOCK_SIZE` (16 bytes, minimum payload). -/
def MIN_BLOCK_SIZE : Nat := 16

/-- `sizeof(MemoryBlock)` on an LP64 platform: `size_t size` (8) +
`bool is_free` padded to 8 + two 8-byte pointers = 32 bytes. -/
def headerSize : Nat := 32

/-- modulus of the 64-bit `size_t` : `2 ^ 64`. -/
def U64 : Nat := 18446744073709551616

/-- In-region block metadata (`struct MemoryBlock`): payload size in bytes
and the free flag.  The `next`/`prev` pointers are represented by the
position of the block in the state's block list. -/
structure MemoryBlock where
  size : Nat
  is_free : Bool
deriving DecidableEq

/-- `struct MemoryStats`: the accounting record. -/
structure MemoryStats where
  total_heap_size : Nat
  used_memory : Nat
  free_memory : Nat
  total_allocations : Nat
  total_frees : Nat
  block_count : Nat
  free_block_count : Nat
  coalesce_count : Nat
  split_count : Nat
deriving DecidableEq

/-- The engine state: region length, block chain in address order,
accounting record, and the region's byte contents by offset. -/
structure AllocState where
  heap_size : Nat
  blocks : List MemoryBlock
  stats : MemoryStats
  mem : Nat → Nat

/-- `MemoryAllocator::alignSize`: `(size + ALIGNMENT - 1) & ~(ALIGNMENT - 1)`
computed on `size_t`.  The sum wraps modulo `2 ^ 64`; `~(ALIGNMENT - 1)`
as a 64-bit word is `U64 - ALIGNMENT`. -/
def alignSize (size : Nat) : Nat :=
  Nat.land ((size + (ALIGNMENT - 1)) % U64) (U64 - ALIGNMENT)

/-- The effective request size of `my_malloc`: the aligned size, raised to
`MIN_BLOCK_SIZE` when below it (lines 122-128 of `memory_allocator.cpp`). -/
def mallocNeed (size : Nat) : Nat :=
  let a := alignSize size
  if a < MIN_BLOCK_SIZE then MIN_BLOCK_SIZE else a

/-- List indexing, `some` when in bounds (a pointer into the chain). -/
def getB : List MemoryBlock → Nat → Option MemoryBlock
  | [], _ => none
  | b :: _, 0 => some b
  | _ :: rest, i + 1 => getB rest i

/-- Replace the block at an index, identity when out of bounds. -/
def setB : List MemoryBlock → Nat → MemoryBlock → List MemoryBlock
  | [], _, _ => []
  | _ :: rest, 0, c => c :: rest
  | b :: rest, i + 1, c => b :: setB rest i c

/-- Total bytes covered by a chain fragment: each block contributes its
header plus its payload. -/
def blocksSize : List MemoryBlock → Nat
  | [] => 0
  | b :: rest => headerSize + b.size + blocksSize rest

/-- Offset of the header of block `i` from `heap_start_` (0 past the end). -/
def blockStart : List MemoryBlock → Nat → Nat
  | _, 0 => 0
  | [], _ + 1 => 0
  | b :: rest, i + 1 => headerSize + b.size + blockStart rest i

/-- `MemoryAllocator::findFreeBlock`: first-fit walk of the chain from the
head, returning the index of the first free block of sufficient size. -/
def findFreeBlock (size : Nat) : List MemoryBlock → Option Nat
  | [] => none
  | b :: rest =>
      if b.is_free ∧ size ≤ b.size then some 0
      else (findFreeBlock size rest).map (· + 1)

/-- Chain surgery of `MemoryAllocator::splitBlock`: block `i` keeps `size`
payload bytes and a new free block of the remaining payload minus one
header is linked in right after it. -/
def splitListAt (size : Nat) : List MemoryBlock → Nat → List MemoryBlock
  | b :: rest, 0 =>
      { b with size := size } :: ⟨b.size - size - headerSize, true⟩ :: rest
  | b :: rest, i + 1 => b :: splitListAt size rest i
  | [], _ => []

/-- `MemoryAllocator::splitBlock` (lines 274-311): split block `i` when the
remaining payload can hold a header plus `MIN_BLOCK_SIZE`, bumping
`block_count`, `free_block_count` and `split_count`; otherwise no change. -/
def splitBlock (s : AllocState) (i : Nat) (size : Nat) : AllocState :=
  match getB s.blocks i with
  | none => s
  | some b =>
      if b.size - size < headerSize + MIN_BLOCK_SIZE then s
      else
        { s with
          blocks := splitListAt size s.blocks i,
          stats := { s.stats with
                      block_count := s.stats.block_count + 1,
                      free_block_count := s.stats.free_block_count + 1,
                      split_count := s.stats.split_count + 1 } }

/-- `MemoryAllocator::recalculateBlockCounts`: walk the whole chain and
overwrite `block_count` / `free_block_count` with the actual totals. -/
def recalculateBlockCounts (s : AllocState) : AllocState :=
  { s with stats := { s.stats with
      block_count := s.blocks.length,
      free_block_count := (s.blocks.filter (fun b => b.is_free)).length } }

/-- `MemoryAllocator::updateStatsAfterAlloc` (lines 367-373). -/
def updateStatsAfterAlloc (s : AllocState) (size : Nat) : AllocState :=
  recalculateBlockCounts
    { s with stats := { s.stats with
        used_memory := s.stats.used_memory + size,
        free_memory := s.stats.free_memory - size,
        total_allocations := s.stats.total_allocations + 1,
        free_block_count := s.stats.free_block_count - 1 } }

/-- `MemoryAllocator::updateStatsAfterFree` (lines 375-380). -/
def updateStatsAfterFree (s : AllocState) (size : Nat) : AllocState :=
  { s with stats := { s.stats with
      used_memory := s.stats.used_memory - size,
      free_memory := s.stats.free_memory + size,
      total_frees := s.stats.total_frees + 1,
      free_block_count := s.stats.free_block_count + 1 } }

/-- Search, split and mark of `my_malloc` after the guards: the body of
lines 130-150 of `memory_allocator.cpp`, parameterised by the rounded
request size. -/
def mallocCore (s : AllocState) (size : Nat) : Option Nat × AllocState :=
  match findFreeBlock size s.blocks with
  | none => (none, s)
  | some i =>
      let s1 := splitBlock s i size
      match getB s1.blocks i with
      | none => (none, s1)
      | some b =>
          let s2 := { s1 with blocks := setB s1.blocks i { b with is_free := false } }
          (some (blockStart s2.blocks i + headerSize), updateStatsAfterAlloc s2 b.size)

/-- `MemoryAllocator::my_malloc` (lines 117-151): zero-size requests return
null without touching the state; otherwise the request is rounded and served
by first fit.  On failure (OutOfMemory diagnostic) null is returned and the
state is the input state. -/
def my_malloc (s : AllocState) (size : Nat) : Option Nat × AllocState :=
  if size = 0 then (none, s) else mallocCore s (mallocNeed size)

/-- `MemoryAllocator::isValidPointer`: range check
`heap_start_ + sizeof(MemoryBlock) ≤ p < heap_end_`, in offsets. -/
def isValidPointer (s : AllocState) (p : Nat) : Bool :=
  decide (headerSize ≤ p) && decide (p < s.heap_size)

/-- Index of the block whose payload starts exactly at offset `p`
(`MemoryBlock::fromData` recovers the header at `p - sizeof(MemoryBlock)`;
in the list model this is the block starting at `p - headerSize`). -/
def blockAtPayload : List MemoryBlock → Nat → Option Nat
  | [], _ => none
  | b :: rest, p =>
      if p = headerSize then some 0
      else (blockAtPayload rest (p - (headerSize + b.size))).map (· + 1)

/-- Whether the block at index `i` exists and is free (the
`ptr && ptr->is_free` tests of the coalesce / realloc paths). -/
def freeAtIdx (bs : List MemoryBlock) (i : Nat) : Bool :=
  match getB bs i with
  | some b => b.is_free
  | none => false

/-- Merge block `i` with block `i + 1` (absorbing the neighbour's header and
payload), identity when there is no such pair. -/
def mergeAt : List MemoryBlock → Nat → List MemoryBlock
  | b :: c :: rest, 0 => ⟨b.size + (headerSize + c.size), b.is_free⟩ :: rest
  | b :: rest, i + 1 => b :: mergeAt rest i
  | bs, _ => bs

/-- `MemoryAllocator::coalesceBlock` (lines 313-352): one-shot forward merge
with the next block when free, then one-shot backward merge with the
previous block when free, each decrementing `block_count` and
`free_block_count` and bumping `coalesce_count`. -/
def coalesceBlock (s : AllocState) (i : Nat) : AllocState :=
  let s1 :=
    if freeAtIdx s.blocks (i + 1) then
      { s with blocks := mergeAt s.blocks i,
               stats := { s.stats with
                  block_count := s.stats.block_count - 1,
                  free_block_count := s.stats.free_block_count - 1,
                  coalesce_count := s.stats.coalesce_count + 1 } }
    else s
  if 0 < i ∧ freeAtIdx s1.blocks (i - 1) then
    { s1 with blocks := mergeAt s1.blocks (i - 1),
              stats := { s1.stats with
                  block_count := s1.stats.block_count - 1,
                  free_block_count := s1.stats.free_block_count - 1,
                  coalesce_count := s1.stats.coalesce_count + 1 } }
  else s1

/-- `MemoryAllocator::my_free` (lines 153-181): null is a no-op; an
out-of-range pointer (InvalidPointer diagnostic) and a double free
(DoubleFree diagnostic) return without modification; otherwise the stats
are updated, the block is marked free and coalesced with its neighbours.
A valid-range pointer that is not the payload address of any block makes
the source fabricate a header from raw bytes; that byte reinterpretation
is outside this embedding and the branch is left as the identity. -/
def my_free (s : AllocState) (ptr : Option Nat) : AllocState :=
  match ptr with
  | none => s
  | some p =>
      if isValidPointer s p then
        match blockAtPayload s.blocks p with
        | none => s
        | some i =>
            match getB s.blocks i with
            | none => s
            | some b =>
                if b.is_free then s
                else
                  let s1 := updateStatsAfterFree s b.size
                  let s2 := { s1 with blocks := setB s1.blocks i { b with is_free := true } }
                  coalesceBlock s2 i
      else s

/-- `std::memcpy(dst, src, n)` on the region's byte map. -/
def memcpyMem (m : Nat → Nat) (dst src n : Nat) : Nat → Nat :=
  fun off => if dst ≤ off ∧ off < dst + n then m (src + (off - dst)) else m off

/-- Relocation tail of `my_realloc` (lines 227-236): allocate fresh, copy
`old_size` bytes, free the old payload.  On allocation failure null is
returned and the original block is left intact. -/
def reallocMove (s : AllocState) (p old_size new_size : Nat) :
    Option Nat × AllocState :=
  match my_malloc s new_size with
  | (none, s') => (none, s')
  | (some np, s') =>
      let s2 := { s' with mem := memcpyMem s'.mem np p old_size }
      (some np, my_free s2 (some p))

/-- `MemoryAllocator::my_realloc` (lines 183-237): null delegates to
`my_malloc`; size 0 delegates to `my_free`; an invalid pointer returns null
(InvalidPointer diagnostic); an aligned size fitting the current block
returns the pointer unchanged; else the block absorbs a free next block
when large enough, or the data is relocated.  As with `my_free`, a
valid-range pointer off every block boundary is outside the embedding. -/
def my_realloc (s : AllocState) (ptr : Option Nat) (new_size : Nat) :
    Option Nat × AllocState :=
  match ptr with
  | none => my_malloc s new_size
  | some p =>
      if new_size = 0 then (none, my_free s (some p))
      else if isValidPointer s p then
        match blockAtPayload s.blocks p with
        | none => (none, s)
        | some i =>
            match getB s.blocks i with
            | none => (none, s)
            | some b =>
                let need := alignSize new_size
                if need ≤ b.size then (some p, s)
                else
                  match getB s.blocks (i + 1) with
                  | some nb =>
                      if nb.is_free ∧ need ≤ b.size + headerSize + nb.size then
                        (some p,
                         { s with blocks := mergeAt s.blocks i,
                                  stats := { s.stats with
                                    free_block_count := s.stats.free_block_count - 1,
                                    block_count := s.stats.block_count - 1 } })
                      else reallocMove s p b.size need
                  | none => reallocMove s p b.size need
      else (none, s)

/-- `MemoryAllocator::my_calloc` (lines 239-254): `count * size` computed on
`size_t` wraps modulo `2 ^ 64`; the overflow test divides back; on success
the first `total_size` payload bytes are set to zero. -/
def my_calloc (s : AllocState) (count size : Nat) : Option Nat × AllocState :=
  let total_size := (count * size) % U64
  if count ≠ 0 ∧ total_size / count ≠ size then (none, s)
  else
    match my_malloc s total_size with
    | (none, s') => (none, s')
    | (some p, s') =>
        (some p,
         { s' with mem := fun off =>
             if p ≤ off ∧ off < p + total_size then 0 else s'.mem off })

/-- `MemoryAllocator::initializeHeap` (lines 91-109): one free block spans
the region and the accounting record is reinitialised. -/
def initializeHeap (s : AllocState) : AllocState :=
  { s with
    blocks := [⟨s.heap_size - headerSize, true⟩],
    stats := { total_heap_size := s.heap_size,
               used_memory := 0,
               free_memory := s.heap_size - headerSize,
               total_allocations := 0,
               total_frees := 0,
               block_count := 1,
               free_block_count := 1,
               coalesce_count := 0,
               split_count := 0 } }

/-- Construction: a region of `heap_size` bytes with byte contents `mem`
(system `malloc` leaves them unspecified), initialised by
`initializeHeap`. -/
def mkAllocator (heap_size : Nat) (mem : Nat → Nat) : AllocState :=
  initializeHeap
    { heap_size := heap_size, blocks := [],
      stats := ⟨0, 0, 0, 0, 0, 0, 0, 0, 0⟩, mem := mem }

/-- `MemoryAllocator::reset` (line 111). -/
def reset (s : AllocState) : AllocState := initializeHeap s

/-- The raw data members of `class MemoryAllocator`, for the move
operations: `heap_start_`, `heap_end_` and `free_list_` are addresses or
null (`none`), plus `heap_size_`, `stats_` and `owns_memory_`. -/
structure MemoryAllocatorFields where
  heap_start : Option Nat
  heap_end : Option Nat
  heap_size : Nat
  free_list : Option Nat
  stats : MemoryStats
  owns_memory : Bool
deriving DecidableEq

/-- Move constructor (lines 56-64): the new engine copies every member;
the source keeps `heap_size_` and `stats_` but its pointers are nulled and
`owns_memory_` is cleared.  Returns (constructed engine, moved-from
engine). -/
def moveConstruct (other : MemoryAllocatorFields) :
    MemoryAllocatorFields × MemoryAllocatorFields :=
  ({ heap_start := other.heap_start, heap_end := other.heap_end,
     heap_size := other.heap_size, free_list := other.free_list,
     stats := other.stats, owns_memory := other.owns_memory },
   { other with heap_start := none, heap_end := none,
                free_list := none, owns_memory := false })

/-- Move assignment (lines 66-85), in the `this != &other` case: the target
takes every member of the source (after releasing its own region, a side
effect outside the field model); the source is cleared as in the move
constructor.  Returns (assigned target, moved-from source). -/
def moveAssign (_target other : MemoryAllocatorFields) :
    MemoryAllocatorFields × MemoryAllocatorFields :=
  ({ heap_start := other.heap_start, heap_end := other.heap_end,
     heap_size := other.heap_size, free_list := other.free_list,
     stats := other.stats, owns_memory := other.owns_memory },
   { other with heap_start := none, heap_end := none,
                free_list := none, owns_memory := false })

/-- Run a sequence of `my_malloc` requests, collecting the returned payload
offsets; `none` when any request in the sequence fails. -/
def allocAll (s : AllocState) : List Nat → Option (AllocState × List Nat)
  | [] => some (s, [])
  | n :: rest =>
      match my_malloc s n with
      | (some p, s') => (allocAll s' rest).map (fun r => (r.1, p :: r.2))
      | (none, _) => none

/-- Run `my_free` on each pointer of a list in order. -/
def freeAll (s : AllocState) : List Nat → AllocState
  | [] => s
  | p :: rest => freeAll (my_free s (some p)) rest

/-- Spec invariant G5 as a relation between neighbouring blocks: at most
one of the two is free. -/
def SepFree (a b : MemoryBlock) : Prop :=
  a.is_free = false ∨ b.is_free = false

/-- Payload offsets of the non-free blocks of a chain fragment starting at
region offset `off`, in address order. -/
def usedPayloadsFrom (off : Nat) : List MemoryBlock → List Nat
  | [] => []
  | b :: rest =>
      if b.is_free then usedPayloadsFrom (off + (headerSize + b.size)) rest
      else (off + headerSize) :: usedPayloadsFrom (off + (headerSize + b.size)) rest

/-- Payload offsets of the non-free blocks of the whole chain. -/
def usedPayloads (bs : List MemoryBlock) : List Nat := usedPayloadsFrom 0 bs

/-- Reachability invariant tying a state to the outstanding payload
pointers `ps`: the chain tiles the region (G1), every payload is nonempty,
no two neighbouring blocks are both free (G5), and the outstanding pointers
are exactly the payload offsets of the non-free blocks. -/
def Inv (s : AllocState) (ps : List Nat) : Prop :=
  blocksSize s.blocks = s.heap_size ∧
  (∀ b ∈ s.blocks, 1 ≤ b.size) ∧
  List.Chain' SepFree s.blocks ∧
  ps.Perm (usedPayloads s.blocks)

/-- Sum of the payload sizes of the free blocks of a chain. -/
def freeBlocksTotal : List MemoryBlock → Nat
  | [] => 0
  | b :: rest =>
      (if b.is_free then b.size else 0) + freeBlocksTotal rest

/-- Sum of the payload sizes of the non-free blocks of a chain. -/
def usedBlocksTotal : List MemoryBlock → Nat
  | [] => 0
  | b :: rest =>
      (if b.is_free then 0 else b.size) + usedBlocksTotal rest

/-- An engine state with deliberately drifted `block_count` /
`free_block_count` (7 and 4; the chain really has 2 blocks, 1 free): heap
of 96 bytes tiled by a 16-byte used block and a 16-byte free block. -/
def driftState : AllocState :=
  { heap_size := 96, blocks := [⟨16, false⟩, ⟨16, true⟩],
    stats := ⟨96, 16, 48, 1, 0, 7, 4, 0, 0⟩, mem := fun _ => 0 }

/-- State after `allocate(100)` on a fresh 1024-byte engine. -/
def c1state : AllocState := (my_malloc (mkAllocator 1024 (fun _ => 0)) 100).2

/-- A fresh 1024-byte engine whose region bytes all read 255 (the region
bytes are unspecified after construction; 255 realises that freedom). -/
def c2start : AllocState := mkAllocator 1024 (fun _ => 255)

/-- State after two `allocate(20)` calls on a fresh 256-byte engine:
blocks `[⟨24, false⟩, ⟨24, false⟩, ⟨112, true⟩]`, payloads 32 and 88. -/
def c6mid : AllocState :=
  { heap_size := 256, blocks := [⟨24, false⟩, ⟨24, false⟩, ⟨112, true⟩],
    stats := ⟨256, 48, 176, 2, 0, 3, 1, 0, 2⟩, mem := fun _ => 0 }

/-- A fully used one-block heap (48 bytes): no allocation can succeed. -/
def fullState : AllocState :=
  { heap_size := 48, blocks := [⟨16, false⟩],
    stats := ⟨48, 16, 0, 1, 0, 1, 0, 0, 0⟩, mem := fun _ => 0 }

/-- A one-block heap whose single block is free (for the double-free
guard). -/
def freeState : AllocState :=
  { heap_size := 48, blocks := [⟨16, true⟩],
    stats := ⟨48, 0, 16, 0, 0, 1, 1, 0, 0⟩, mem := fun _ => 0 }

/-- An engine with nonzero counters, to be moved from. -/
def movedSource : MemoryAllocatorFields :=
  { heap_start := some 0, heap_end := some 1024, heap_size := 1024,
    free_list := some 0, stats := ⟨1024, 104, 888, 5, 3, 2, 1, 0, 1⟩,
    owns_memory := true }

/-! ### Basic lemmas about the chain operations -/

theorem headerSize_eq : headerSize = 32 := rfl

theorem MIN_BLOCK_SIZE_eq : MIN_BLOCK_SIZE = 16 := rfl

theorem getB_append (pre post : List MemoryBlock) (b : MemoryBlock) :
    getB (pre ++ b :: post) pre.length = some b := by
  induction pre with
  | nil => rfl
  | cons a pre ih => simpa [getB] using ih

theorem getB_append_succ (pre post : List MemoryBlock) (b : MemoryBlock) :
    getB (pre ++ b :: post) (pre.length + 1) = getB post 0 := by
  induction pre with
  | nil => rfl
  | cons a pre ih => simpa [getB] using ih

theorem getB_decomp : ∀ (bs : List MemoryBlock) (i : Nat) (b : MemoryBlock),
    getB bs i = some b → ∃ pre post, bs = pre ++ b :: post ∧ pre.length = i := by
  intro bs
  induction bs with
  | nil => intro i b h; cases h
  | cons a rest ih =>
    intro i b h
    cases i with
    | zero =>
        cases h
        exact ⟨[], rest, rfl, rfl⟩
    | succ i =>
        obtain ⟨pre, post, h1, h2⟩ := ih i b h
        exact ⟨a :: pre, post, by simp [h1], by simp [h2]⟩

theorem setB_append (pre post : List MemoryBlock) (c : MemoryBlock)
    (b : MemoryBlock) : setB (pre ++ b :: post) pre.length c = pre ++ c :: post := by
  induction pre with
  | nil => rfl
  | cons a pre ih => simp [setB, ih]

theorem splitListAt_append (n : Nat) (pre post : List MemoryBlock) (b : MemoryBlock) :
    splitListAt n (pre ++ b :: post) pre.length =
      pre ++ { b with size := n } :: ⟨b.size - n - headerSize, true⟩ :: post := by
  induction pre with
  | nil => rfl
  | cons a pre ih => simp [splitListAt, ih]

theorem mergeAt_append (pre post : List MemoryBlock) (b c : MemoryBlock) :
    mergeAt (pre ++ b :: c :: post) pre.length =
      pre ++ ⟨b.size + (headerSize + c.size), b.is_free⟩ :: post := by
  induction pre with
  | nil => rfl
  | cons a pre ih => simp [mergeAt, ih]

theorem blocksSize_append (xs ys : List MemoryBlock) :
    blocksSize (xs ++ ys) = blocksSize xs + blocksSize ys := by
  induction xs with
  | nil => simp [blocksSize]
  | cons a xs ih => simp [blocksSize, ih]; omega

theorem blockStart_append (pre rest : List MemoryBlock) :
    blockStart (pre ++ rest) pre.length = blocksSize pre := by
  induction pre with
  | nil => cases rest <;> rfl
  | cons a pre ih => simp [blockStart, blocksSize, ih]

theorem usedPayloadsFrom_append (xs : List MemoryBlock) :
    ∀ (off : Nat) (ys : List MemoryBlock),
      usedPayloadsFrom off (xs ++ ys) =
        usedPayloadsFrom off xs ++ usedPayloadsFrom (off + blocksSize xs) ys := by
  induction xs with
  | nil => intro off ys; simp [usedPayloadsFrom, blocksSize]
  | cons a xs ih =>
    intro off ys
    by_cases ha : a.is_free = true <;>
      simp [usedPayloadsFrom, ha, ih, blocksSize, Nat.add_assoc]

theorem chain'_sandwich_iff (xs zs : List MemoryBlock) (y : MemoryBlock) :
    List.Chain' SepFree (xs ++ y :: zs) ↔
      List.Chain' SepFree xs ∧ List.Chain' SepFree zs ∧
        (∀ x ∈ xs.getLast?, SepFree x y) ∧ (∀ z ∈ zs.head?, SepFree y z) := by
  rw [List.chain'_append, List.chain'_cons']
  constructor
  · rintro ⟨h1, ⟨h2, h3⟩, h4⟩
    refine ⟨h1, h3, fun x hx => h4 x hx y ?_, h2⟩
    simp
  · rintro ⟨h1, h2, h3, h4⟩
    refine ⟨h1, ⟨h4, h2⟩, fun x hx w hw => ?_⟩
    have : y = w := by simpa using hw
    subst this
    exact h3 x hx

theorem findFreeBlock_some (n : Nat) : ∀ (bs : List MemoryBlock) (i : Nat),
    findFreeBlock n bs = some i →
      ∃ b, getB bs i = some b ∧ b.is_free = true ∧ n ≤ b.size ∧
        ∀ j bj, j < i → getB bs j = some bj →
          ¬(bj.is_free = true ∧ n ≤ bj.size) := by
  intro bs
  induction bs with
  | nil => intro i h; cases h
  | cons a rest ih =>
    intro i h
    rw [findFreeBlock] at h
    by_cases hc : a.is_free = true ∧ n ≤ a.size
    · rw [if_pos hc] at h
      cases h
      exact ⟨a, rfl, hc.1, hc.2, fun j bj hj _ => absurd hj (Nat.not_lt_zero j)⟩
    · rw [if_neg hc] at h
      obtain ⟨i', hi', rfl⟩ := Option.map_eq_some'.mp h
      obtain ⟨b, hb1, hb2, hb3, hb4⟩ := ih i' hi'
      refine ⟨b, hb1, hb2, hb3, ?_⟩
      intro j bj hj hgb
      cases j with
      | zero => cases hgb; exact hc
      | succ j => exact hb4 j bj (Nat.lt_of_succ_lt_succ hj) hgb

theorem findFreeBlock_none (n : Nat) : ∀ (bs : List MemoryBlock),
    (∀ b ∈ bs, ¬(b.is_free = true ∧ n ≤ b.size)) → findFreeBlock n bs = none := by
  intro bs
  induction bs with
  | nil => intro _; rfl
  | cons a rest ih =>
    intro h
    rw [findFreeBlock, if_neg (h a (by simp)), ih (fun b hb => h b (by simp [hb]))]
    rfl

theorem blockAtPayload_at (pre post : List MemoryBlock) (b : MemoryBlock) :
    blockAtPayload (pre ++ b :: post) (blocksSize pre + headerSize) =
      some pre.length := by
  induction pre with
  | nil => simp [blockAtPayload, blocksSize]
  | cons a pre ih =>
    rw [List.cons_append, blockAtPayload,
        if_neg (by have := headerSize_eq; simp [blocksSize]; omega)]
    have harg : blocksSize (a :: pre) + headerSize - (headerSize + a.size) =
        blocksSize pre + headerSize := by
      simp [blocksSize]; omega
    rw [harg, ih]
    rfl

theorem usedPayloadsFrom_mem : ∀ (bs : List MemoryBlock) (off p : Nat),
    p ∈ usedPayloadsFrom off bs →
      ∃ pre b post, bs = pre ++ b :: post ∧ b.is_free = false ∧
        p = off + blocksSize pre + headerSize := by
  intro bs
  induction bs with
  | nil => intro off p h; simp [usedPayloadsFrom] at h
  | cons a rest ih =>
    intro off p h
    by_cases ha : a.is_free = true
    · rw [usedPayloadsFrom, if_pos ha] at h
      obtain ⟨pre, b, post, h1, h2, h3⟩ := ih _ _ h
      exact ⟨a :: pre, b, post, by simp [h1],
             h2, by simp [blocksSize] at h3 ⊢; omega⟩
    · rw [usedPayloadsFrom, if_neg ha] at h
      rcases List.mem_cons.mp h with h | h
      · exact ⟨[], a, rest, rfl, Bool.not_eq_true _ ▸ ha,
               by simp [blocksSize, h]⟩
      · obtain ⟨pre, b, post, h1, h2, h3⟩ := ih _ _ h
        exact ⟨a :: pre, b, post, by simp [h1],
               h2, by simp [blocksSize] at h3 ⊢; omega⟩

theorem usedPayloadsFrom_nil_free : ∀ (bs : List MemoryBlock) (off : Nat),
    usedPayloadsFrom off bs = [] → ∀ b ∈ bs, b.is_free = true := by
  intro bs
  induction bs with
  | nil => intro off _ b hb; cases hb
  | cons a rest ih =>
    intro off h b hb
    by_cases ha : a.is_free = true
    · rw [usedPayloadsFrom, if_pos ha] at h
      rcases List.mem_cons.mp hb with rfl | hb
      · exact ha
      · exact ih _ h b hb
    · rw [usedPayloadsFrom, if_neg ha] at h
      cases h

/-! ### The allocation path -/

theorem mallocNeed_ge (n : Nat) : MIN_BLOCK_SIZE ≤ mallocNeed n := by
  show MIN_BLOCK_SIZE ≤
    (if alignSize n < MIN_BLOCK_SIZE then MIN_BLOCK_SIZE else alignSize n)
  split <;> omega

theorem mallocNeed_eq_max (n : Nat) :
    mallocNeed n = max (alignSize n) MIN_BLOCK_SIZE := by
  show (if alignSize n < MIN_BLOCK_SIZE then MIN_BLOCK_SIZE else alignSize n) = _
  split <;> omega

theorem mallocCore_spec (s : AllocState) (n : Nat) (pre post : List MemoryBlock)
    (b : MemoryBlock) (hbs : s.blocks = pre ++ b :: post)
    (hfind : findFreeBlock n s.blocks = some pre.length) :
    (mallocCore s n).1 = some (blocksSize pre + headerSize) ∧
    (mallocCore s n).2.blocks =
      (if b.size - n < headerSize + MIN_BLOCK_SIZE
       then pre ++ { b with is_free := false } :: post
       else pre ++ (⟨n, false⟩ : MemoryBlock) ::
         (⟨b.size - n - headerSize, true⟩ : MemoryBlock) :: post) ∧
    (mallocCore s n).2.heap_size = s.heap_size ∧
    (mallocCore s n).2.mem = s.mem := by
  have hget : getB s.blocks pre.length = some b := by
    rw [hbs]; exact getB_append pre post b
  by_cases hsplit : b.size - n < headerSize + MIN_BLOCK_SIZE
  · have h1 : splitBlock s pre.length n = s := by
      simp only [splitBlock, hget]
      rw [if_pos hsplit]
    have h2 : setB s.blocks pre.length { b with is_free := false } =
        pre ++ { b with is_free := false } :: post := by
      rw [hbs]; exact setB_append pre post _ b
    simp only [mallocCore, hfind, h1, hget, h2, if_pos hsplit,
      updateStatsAfterAlloc, recalculateBlockCounts, blockStart_append]
    exact ⟨trivial, trivial, trivial, trivial⟩
  · have h1 : splitBlock s pre.length n =
        { s with blocks := splitListAt n s.blocks pre.length,
                 stats := { s.stats with
                   block_count := s.stats.block_count + 1,
                   free_block_count := s.stats.free_block_count + 1,
                   split_count := s.stats.split_count + 1 } } := by
      simp only [splitBlock, hget]
      rw [if_neg hsplit]
    have h2 : splitListAt n s.blocks pre.length =
        pre ++ { b with size := n } ::
          (⟨b.size - n - headerSize, true⟩ : MemoryBlock) :: post := by
      rw [hbs]; exact splitListAt_append n pre post b
    have h3 : getB (pre ++ { b with size := n } ::
        (⟨b.size - n - headerSize, true⟩ : MemoryBlock) :: post) pre.length =
        some { b with size := n } := getB_append _ _ _
    have h4 : setB (pre ++ { b with size := n } ::
        (⟨b.size - n - headerSize, true⟩ : MemoryBlock) :: post) pre.length
        { { b with size := n } with is_free := false } =
        pre ++ (⟨n, false⟩ : MemoryBlock) ::
          (⟨b.size - n - headerSize, true⟩ : MemoryBlock) :: post := by
      rw [setB_append]
    simp only [mallocCore, hfind, h1, h2, h3, h4, if_neg hsplit,
      updateStatsAfterAlloc, recalculateBlockCounts, blockStart_append]
    exact ⟨trivial, trivial, trivial, trivial⟩

theorem my_malloc_some (s : AllocState) (n p : Nat) (s' : AllocState)
    (h : my_malloc s n = (some p, s')) :
    n ≠ 0 ∧ mallocCore s (mallocNeed n) = (some p, s') := by
  by_cases hn : n = 0
  · rw [my_malloc, if_pos hn] at h
    simp at h
  · rw [my_malloc, if_neg hn] at h
    exact ⟨hn, h⟩

theorem mallocCore_success (s : AllocState) (n p : Nat) (s' : AllocState)
    (h : mallocCore s n = (some p, s')) :
    ∃ pre b post, s.blocks = pre ++ b :: post ∧ b.is_free = true ∧ n ≤ b.size ∧
      p = blocksSize pre + headerSize ∧
      s'.blocks = (if b.size - n < headerSize + MIN_BLOCK_SIZE
                   then pre ++ { b with is_free := false } :: post
                   else pre ++ (⟨n, false⟩ : MemoryBlock) ::
                     (⟨b.size - n - headerSize, true⟩ : MemoryBlock) :: post) ∧
      s'.heap_size = s.heap_size ∧ s'.mem = s.mem := by
  cases hf : findFreeBlock n s.blocks with
  | none => rw [mallocCore, hf] at h; simp at h
  | some i =>
    obtain ⟨b, hget, hfree, hsize, _⟩ := findFreeBlock_some n s.blocks i hf
    obtain ⟨pre, post, hbs, hlen⟩ := getB_decomp s.blocks i b hget
    subst hlen
    obtain ⟨g1, g2, g3, g4⟩ := mallocCore_spec s n pre post b hbs hf
    rw [h] at g1 g2 g3 g4
    exact ⟨pre, b, post, hbs, hfree, hsize, by simpa using g1, g2, g3, g4⟩

theorem malloc_inv (s : AllocState) (n p : Nat) (s' : AllocState) (ps : List Nat)
    (hinv : Inv s ps) (h : my_malloc s n = (some p, s')) :
    Inv s' (p :: ps) ∧ s'.heap_size = s.heap_size := by
  obtain ⟨hn0, hcore⟩ := my_malloc_some s n p s' h
  obtain ⟨pre, b, post, hbs, hfree, hsizeb, hp, hblocks, hheap, hmem⟩ :=
    mallocCore_success s (mallocNeed n) p s' hcore
  obtain ⟨htile, hsz, hch, hperm⟩ := hinv
  have hneed : MIN_BLOCK_SIZE ≤ mallocNeed n := mallocNeed_ge n
  have hchd := (chain'_sandwich_iff pre post b).mp (hbs ▸ hch)
  obtain ⟨hchpre, hchpost, hjl, hjr⟩ := hchd
  have hused : usedPayloads s.blocks =
      usedPayloadsFrom 0 pre ++
        usedPayloadsFrom (0 + blocksSize pre + (headerSize + b.size)) post := by
    rw [hbs, usedPayloads, usedPayloadsFrom_append, usedPayloadsFrom, if_pos hfree]
  by_cases hcase : b.size - mallocNeed n < headerSize + MIN_BLOCK_SIZE
  · rw [if_pos hcase] at hblocks
    refine ⟨⟨?_, ?_, ?_, ?_⟩, hheap⟩
    · rw [hblocks, hheap, ← htile, hbs]
      simp [blocksSize_append, blocksSize]
    · intro bb hbb
      rw [hblocks] at hbb
      rcases List.mem_append.mp hbb with hbb | hbb
      · exact hsz bb (by rw [hbs]; exact List.mem_append_left _ hbb)
      · rcases List.mem_cons.mp hbb with rfl | hbb
        · exact hsz b (by rw [hbs]; simp)
        · exact hsz bb (by rw [hbs]; simp [hbb])
    · rw [hblocks]
      exact (chain'_sandwich_iff pre post _).mpr
        ⟨hchpre, hchpost, fun x _ => Or.inr rfl, fun z _ => Or.inl rfl⟩
    · rw [hblocks, usedPayloads, usedPayloadsFrom_append, usedPayloadsFrom]
      simp only [if_neg (by simp : ¬({ b with is_free := false } : MemoryBlock).is_free = true)]
      have hp' : 0 + blocksSize pre + headerSize = p := by omega
      have hrest : (0 + blocksSize pre +
          (headerSize + ({ b with is_free := false } : MemoryBlock).size)) =
          0 + blocksSize pre + (headerSize + b.size) := rfl
      rw [hp', hrest]
      exact ((hused ▸ hperm).cons p).trans List.perm_middle.symm
  · rw [if_neg hcase] at hblocks
    have hs32 : mallocNeed n + headerSize + MIN_BLOCK_SIZE ≤ b.size := by omega
    refine ⟨⟨?_, ?_, ?_, ?_⟩, hheap⟩
    · rw [hblocks, hheap, ← htile, hbs]
      simp only [blocksSize_append, blocksSize]
      have := headerSize_eq
      have := MIN_BLOCK_SIZE_eq
      omega
    · intro bb hbb
      rw [hblocks] at hbb
      rcases List.mem_append.mp hbb with hbb | hbb
      · exact hsz bb (by rw [hbs]; exact List.mem_append_left _ hbb)
      · rcases List.mem_cons.mp hbb with rfl | hbb
        · have := MIN_BLOCK_SIZE_eq; simp; omega
        · rcases List.mem_cons.mp hbb with rfl | hbb
          · have := headerSize_eq; have := MIN_BLOCK_SIZE_eq; simp; omega
          · exact hsz bb (by rw [hbs]; simp [hbb])
    · rw [hblocks]
      refine (chain'_sandwich_iff pre _ _).mpr
        ⟨hchpre, ?_, fun x _ => Or.inr rfl, fun z hz => Or.inl rfl⟩
      refine List.chain'_cons'.mpr ⟨?_, hchpost⟩
      intro z hz
      have := hjr z hz
      rcases this with h1 | h1
      · rw [hfree] at h1; cases h1
      · exact Or.inr h1
    · rw [hblocks, usedPayloads, usedPayloadsFrom_append, usedPayloadsFrom]
      simp only [if_neg (by simp : ¬((⟨mallocNeed n, false⟩ : MemoryBlock)).is_free = true)]
      rw [usedPayloadsFrom]
      simp only [if_pos (by simp : ((⟨b.size - mallocNeed n - headerSize, true⟩ :
        MemoryBlock)).is_free = true)]
      have hp' : 0 + blocksSize pre + headerSize = p := by omega
      have hoff : 0 + blocksSize pre +
          (headerSize + (⟨mallocNeed n, false⟩ : MemoryBlock).size) +
          (headerSize + (⟨b.size - mallocNeed n - headerSize, true⟩ : MemoryBlock).size) =
          0 + blocksSize pre + (headerSize + b.size) := by
        simp only []
        have := headerSize_eq
        have := MIN_BLOCK_SIZE_eq
        omega
      rw [hp', hoff]
      exact ((hused ▸ hperm).cons p).trans List.perm_middle.symm

/-! ### The free / coalesce path -/

theorem SepFree_resolve_left {x y : MemoryBlock} (h : SepFree x y)
    (hy : y.is_free = true) : x.is_free = false := by
  rcases h with h | h
  · exact h
  · rw [h] at hy; cases hy

theorem SepFree_resolve_right {x y : MemoryBlock} (h : SepFree x y)
    (hx : x.is_free = true) : y.is_free = false := by
  rcases h with h | h
  · rw [h] at hx; cases hx
  · exact h

theorem usedPayloadsFrom_off_congr (l : List MemoryBlock) {X Y : Nat}
    (h : X = Y) : usedPayloadsFrom X l = usedPayloadsFrom Y l := by rw [h]

theorem freeAtIdx_append (pre post : List MemoryBlock) (x : MemoryBlock) :
    freeAtIdx (pre ++ x :: post) pre.length = x.is_free := by
  simp [freeAtIdx, getB_append]

theorem coalesce_spec (s2 : AllocState) (pre post : List MemoryBlock) (bsz : Nat)
    (hbs : s2.blocks = pre ++ (⟨bsz, true⟩ : MemoryBlock) :: post)
    (hpre : List.Chain' SepFree pre) (hpost : List.Chain' SepFree post)
    (hsz : ∀ b ∈ s2.blocks, 1 ≤ b.size) :
    List.Chain' SepFree (coalesceBlock s2 pre.length).blocks ∧
    blocksSize (coalesceBlock s2 pre.length).blocks = blocksSize s2.blocks ∧
    usedPayloads (coalesceBlock s2 pre.length).blocks = usedPayloads s2.blocks ∧
    (∀ b ∈ (coalesceBlock s2 pre.length).blocks, 1 ≤ b.size) ∧
    (coalesceBlock s2 pre.length).stats.split_count = s2.stats.split_count ∧
    s2.stats.coalesce_count ≤ (coalesceBlock s2 pre.length).stats.coalesce_count ∧
    (coalesceBlock s2 pre.length).heap_size = s2.heap_size := by
  have hhs := headerSize_eq
  rcases post with _ | ⟨c, post'⟩
  · -- no next block
    have hfwd : freeAtIdx s2.blocks (pre.length + 1) = false := by
      rw [hbs]; simp [freeAtIdx, getB_append_succ, getB]
    rcases List.eq_nil_or_concat pre with hpre0 | ⟨pre', a, hpre'⟩
    · -- no previous block either: nothing merges
      subst hpre0
      have hfwd1 : freeAtIdx s2.blocks 1 = false := by simpa using hfwd
      have hres : coalesceBlock s2 ([] : List MemoryBlock).length = s2 := by
        simp [coalesceBlock, hfwd1]
      rw [hres]
      refine ⟨?_, rfl, rfl, hsz, rfl, Nat.le_refl _, rfl⟩
      rw [hbs]
      exact List.chain'_singleton _
    · rw [List.concat_eq_append] at hpre'
      subst hpre'
      have hil : (pre' ++ [a]).length = pre'.length + 1 := by simp
      rw [hil] at hfwd ⊢
      have hshape : s2.blocks = pre' ++ a :: (⟨bsz, true⟩ : MemoryBlock) :: [] := by
        rw [hbs]; simp
      have hbk : freeAtIdx s2.blocks pre'.length = a.is_free := by
        rw [hshape]; exact freeAtIdx_append pre' _ a
      obtain ⟨hchpre', -, hjl', -⟩ := (chain'_sandwich_iff pre' [] a).mp hpre
      by_cases ha : a.is_free = true
      · -- backward merge only
        have hmerge : mergeAt s2.blocks pre'.length =
            pre' ++ [(⟨a.size + (headerSize + bsz), true⟩ : MemoryBlock)] := by
          rw [hshape, mergeAt_append, ha]
        have hres : coalesceBlock s2 (pre'.length + 1) =
            { s2 with
              blocks := pre' ++ [(⟨a.size + (headerSize + bsz), true⟩ : MemoryBlock)],
              stats := { s2.stats with
                block_count := s2.stats.block_count - 1,
                free_block_count := s2.stats.free_block_count - 1,
                coalesce_count := s2.stats.coalesce_count + 1 } } := by
          simp [coalesceBlock, hfwd, hbk, ha, hmerge]
        rw [hres]
        refine ⟨?_, ?_, ?_, ?_, rfl, by simp, rfl⟩
        · exact (chain'_sandwich_iff pre' [] _).mpr
            ⟨hchpre', List.chain'_nil,
             fun x hx => Or.inl (SepFree_resolve_left (hjl' x hx) ha),
             fun z hz => by simp at hz⟩
        · rw [hbs]
          simp [blocksSize_append, blocksSize]
          omega
        · rw [hbs]
          simp [usedPayloads, usedPayloadsFrom_append, usedPayloadsFrom, ha]
        · intro bb hbb
          simp only [List.mem_append, List.mem_singleton] at hbb
          rcases hbb with hbb | rfl
          · exact hsz bb (by rw [hshape]; simp [hbb])
          · simp; omega
      · -- no merge at all
        have hres : coalesceBlock s2 (pre'.length + 1) = s2 := by
          simp [coalesceBlock, hfwd, hbk, ha]
        rw [hres]
        refine ⟨?_, rfl, rfl, hsz, rfl, Nat.le_refl _, rfl⟩
        rw [hbs]
        refine (chain'_sandwich_iff (pre' ++ [a]) [] _).mpr
          ⟨hpre, List.chain'_nil, ?_, fun z hz => by simp at hz⟩
        intro x hx
        have hx' : a = x := by simpa using hx
        subst hx'
        exact Or.inl (Bool.not_eq_true _ ▸ ha)
  · -- next block exists
    have hfwd : freeAtIdx s2.blocks (pre.length + 1) = c.is_free := by
      rw [hbs]; simp [freeAtIdx, getB_append_succ, getB]
    by_cases hc : c.is_free = true
    · -- forward merge happens
      obtain ⟨hcp, hchpost'⟩ := List.chain'_cons'.mp hpost
      have hmerge1 : mergeAt s2.blocks pre.length =
          pre ++ (⟨bsz + (headerSize + c.size), true⟩ : MemoryBlock) :: post' := by
        rw [hbs, mergeAt_append]
      rcases List.eq_nil_or_concat pre with hpre0 | ⟨pre', a, hpre'⟩
      · -- head block: only the forward merge
        subst hpre0
        have hfwd1 : freeAtIdx s2.blocks 1 = true := by
          rw [hc] at hfwd; simpa using hfwd
        have hm0 : mergeAt s2.blocks 0 =
            (⟨bsz + (headerSize + c.size), true⟩ : MemoryBlock) :: post' := by
          simpa using hmerge1
        have hres : coalesceBlock s2 ([] : List MemoryBlock).length =
            { s2 with
              blocks := (⟨bsz + (headerSize + c.size), true⟩ : MemoryBlock) :: post',
              stats := { s2.stats with
                block_count := s2.stats.block_count - 1,
                free_block_count := s2.stats.free_block_count - 1,
                coalesce_count := s2.stats.coalesce_count + 1 } } := by
          simp [coalesceBlock, hfwd1, hm0]
        rw [hres]
        refine ⟨?_, ?_, ?_, ?_, rfl, by simp, rfl⟩
        · refine List.chain'_cons'.mpr ⟨?_, hchpost'⟩
          intro z hz
          exact Or.inr (SepFree_resolve_right (hcp z hz) hc)
        · rw [hbs]
          simp [blocksSize_append, blocksSize]
          omega
        · rw [hbs]
          simp only [usedPayloads, List.nil_append, usedPayloadsFrom,
            if_pos (rfl : (true : Bool) = true)]
          simp only [show ((⟨bsz + (headerSize + c.size), true⟩ :
            MemoryBlock)).is_free = true from rfl,
            show ((⟨bsz, true⟩ : MemoryBlock)).is_free = true from rfl, hc,
            if_pos]
          exact usedPayloadsFrom_off_congr post' (by simp; omega)
        · intro bb hbb
          rcases List.mem_cons.mp hbb with rfl | hbb
          · simp; omega
          · exact hsz bb (by rw [hbs]; simp [hbb])
      · rw [List.concat_eq_append] at hpre'
        subst hpre'
        have hil : (pre' ++ [a]).length = pre'.length + 1 := by simp
        rw [hil] at hfwd hmerge1 ⊢
        have hs1shape : (pre' ++ [a]) ++
            (⟨bsz + (headerSize + c.size), true⟩ : MemoryBlock) :: post' =
            pre' ++ a :: (⟨bsz + (headerSize + c.size), true⟩ : MemoryBlock) :: post' := by
          simp
        obtain ⟨hchpre', -, hjl', -⟩ := (chain'_sandwich_iff pre' [] a).mp hpre
        by_cases ha : a.is_free = true
        · -- forward then backward merge
          have hmerge2 : mergeAt (pre' ++ a ::
              (⟨bsz + (headerSize + c.size), true⟩ : MemoryBlock) :: post') pre'.length =
              pre' ++ (⟨a.size + (headerSize + (bsz + (headerSize + c.size))), true⟩ :
                MemoryBlock) :: post' := by
            rw [mergeAt_append, ha]
          have hres : coalesceBlock s2 (pre'.length + 1) =
              { s2 with
                blocks := pre' ++
                  (⟨a.size + (headerSize + (bsz + (headerSize + c.size))), true⟩ :
                    MemoryBlock) :: post',
                stats := { s2.stats with
                  block_count := s2.stats.block_count - 1 - 1,
                  free_block_count := s2.stats.free_block_count - 1 - 1,
                  coalesce_count := s2.stats.coalesce_count + 1 + 1 } } := by
            simp only [coalesceBlock, hfwd, hc, if_true, hmerge1, hs1shape]
            have hbk1 : freeAtIdx (pre' ++ a ::
                (⟨bsz + (headerSize + c.size), true⟩ : MemoryBlock) :: post')
                pre'.length = a.is_free := freeAtIdx_append pre' _ a
            simp [hbk1, ha, hmerge2]
          rw [hres]
          refine ⟨?_, ?_, ?_, ?_, rfl, by simp; omega, rfl⟩
          · refine (chain'_sandwich_iff pre' post' _).mpr
              ⟨hchpre', hchpost', ?_, ?_⟩
            · intro x hx
              exact Or.inl (SepFree_resolve_left (hjl' x hx) ha)
            · intro z hz
              exact Or.inr (SepFree_resolve_right (hcp z hz) hc)
          · rw [hbs]
            simp [blocksSize_append, blocksSize]
            omega
          · rw [hbs]
            simp only [usedPayloads, usedPayloadsFrom_append, List.append_assoc,
              List.cons_append, List.nil_append]
            simp only [usedPayloadsFrom,
              show ((⟨a.size + (headerSize + (bsz + (headerSize + c.size))), true⟩ :
                MemoryBlock)).is_free = true from rfl,
              show ((⟨bsz, true⟩ : MemoryBlock)).is_free = true from rfl, ha, hc,
              if_pos]
            exact congrArg _ (usedPayloadsFrom_off_congr post' (by simp; omega))
          · intro bb hbb
            rcases List.mem_append.mp hbb with hbb | hbb
            · exact hsz bb (by rw [hbs]; simp [hbb])
            · rcases List.mem_cons.mp hbb with rfl | hbb
              · simp; omega
              · exact hsz bb (by rw [hbs]; simp [hbb])
        · -- forward merge only
          have hres : coalesceBlock s2 (pre'.length + 1) =
              { s2 with
                blocks := (pre' ++ [a]) ++
                  (⟨bsz + (headerSize + c.size), true⟩ : MemoryBlock) :: post',
                stats := { s2.stats with
                  block_count := s2.stats.block_count - 1,
                  free_block_count := s2.stats.free_block_count - 1,
                  coalesce_count := s2.stats.coalesce_count + 1 } } := by
            simp only [coalesceBlock, hfwd, hc, if_true, hmerge1, hs1shape]
            have hbk1 : freeAtIdx (pre' ++ a ::
                (⟨bsz + (headerSize + c.size), true⟩ : MemoryBlock) :: post')
                pre'.length = a.is_free := freeAtIdx_append pre' _ a
            simp [hbk1, ha, hs1shape]
          rw [hres]
          refine ⟨?_, ?_, ?_, ?_, rfl, by simp, rfl⟩
          · refine (chain'_sandwich_iff (pre' ++ [a]) post' _).mpr
              ⟨hpre, hchpost', ?_, ?_⟩
            · intro x hx
              have hx' : a = x := by simpa using hx
              subst hx'
              exact Or.inl (Bool.not_eq_true _ ▸ ha)
            · intro z hz
              exact Or.inr (SepFree_resolve_right (hcp z hz) hc)
          · rw [hbs]
            simp [blocksSize_append, blocksSize]
            omega
          · rw [hbs]
            simp only [usedPayloads, usedPayloadsFrom_append, List.append_assoc,
              List.cons_append, List.nil_append]
            simp only [usedPayloadsFrom,
              show ((⟨bsz + (headerSize + c.size), true⟩ :
                MemoryBlock)).is_free = true from rfl,
              show ((⟨bsz, true⟩ : MemoryBlock)).is_free = true from rfl, hc,
              if_pos]
            by_cases haf : a.is_free = true
            · cases ha haf
            · simp only [haf, if_neg, Bool.false_eq_true, if_false]
              exact congrArg _ (congrArg _
                (usedPayloadsFrom_off_congr post' (by simp; omega)))
          · intro bb hbb
            rcases List.mem_append.mp hbb with hbb | hbb
            · exact hsz bb (by rw [hbs]; simp only [List.mem_append, List.mem_cons, List.mem_singleton] at hbb ⊢; tauto)
            · rcases List.mem_cons.mp hbb with rfl | hbb
              · simp; omega
              · exact hsz bb (by rw [hbs]; simp [hbb])
    · -- next block not free
      rcases List.eq_nil_or_concat pre with hpre0 | ⟨pre', a, hpre'⟩
      · subst hpre0
        have hfwd1 : freeAtIdx s2.blocks 1 = false := by
          rw [Bool.not_eq_true] at hc
          simpa [hc] using hfwd
        have hres : coalesceBlock s2 ([] : List MemoryBlock).length = s2 := by
          simp [coalesceBlock, hfwd1]
        rw [hres]
        refine ⟨?_, rfl, rfl, hsz, rfl, Nat.le_refl _, rfl⟩
        rw [hbs]
        refine List.chain'_cons'.mpr ⟨?_, hpost⟩
        intro z hz
        have hz' : c = z := by simpa using hz
        subst hz'
        exact Or.inr (Bool.not_eq_true _ ▸ hc)
      · rw [List.concat_eq_append] at hpre'
        subst hpre'
        have hil : (pre' ++ [a]).length = pre'.length + 1 := by simp
        rw [hil] at hfwd ⊢
        have hshape : s2.blocks = pre' ++ a ::
            (⟨bsz, true⟩ : MemoryBlock) :: c :: post' := by
          rw [hbs]; simp
        have hbk : freeAtIdx s2.blocks pre'.length = a.is_free := by
          rw [hshape]; exact freeAtIdx_append pre' _ a
        obtain ⟨hchpre', -, hjl', -⟩ := (chain'_sandwich_iff pre' [] a).mp hpre
        by_cases ha : a.is_free = true
        · -- backward merge only
          have hmerge : mergeAt s2.blocks pre'.length =
              pre' ++ (⟨a.size + (headerSize + bsz), true⟩ : MemoryBlock) ::
                c :: post' := by
            rw [hshape, mergeAt_append, ha]
          have hres : coalesceBlock s2 (pre'.length + 1) =
              { s2 with
                blocks := pre' ++ (⟨a.size + (headerSize + bsz), true⟩ :
                  MemoryBlock) :: c :: post',
                stats := { s2.stats with
                  block_count := s2.stats.block_count - 1,
                  free_block_count := s2.stats.free_block_count - 1,
                  coalesce_count := s2.stats.coalesce_count + 1 } } := by
            simp [coalesceBlock, hfwd, hc, hbk, ha, hmerge]
          rw [hres]
          refine ⟨?_, ?_, ?_, ?_, rfl, by simp, rfl⟩
          · refine (chain'_sandwich_iff pre' (c :: post') _).mpr
              ⟨hchpre', hpost, ?_, ?_⟩
            · intro x hx
              exact Or.inl (SepFree_resolve_left (hjl' x hx) ha)
            · intro z hz
              have hz' : c = z := by simpa using hz
              subst hz'
              exact Or.inr (Bool.not_eq_true _ ▸ hc)
          · rw [hbs]
            simp [blocksSize_append, blocksSize]
            omega
          · rw [hbs]
            simp only [usedPayloads, usedPayloadsFrom_append, List.append_assoc,
              List.cons_append, List.nil_append]
            simp only [usedPayloadsFrom,
              show ((⟨a.size + (headerSize + bsz), true⟩ :
                MemoryBlock)).is_free = true from rfl,
              show ((⟨bsz, true⟩ : MemoryBlock)).is_free = true from rfl, ha,
              if_pos]
            exact congrArg _ (usedPayloadsFrom_off_congr (c :: post')
              (by simp; omega))
          · intro bb hbb
            rcases List.mem_append.mp hbb with hbb | hbb
            · exact hsz bb (by rw [hshape]; simp [hbb])
            · rcases List.mem_cons.mp hbb with rfl | hbb
              · simp; omega
              · exact hsz bb (by rw [hshape]; simp [hbb])
        · -- nothing merges
          have hres : coalesceBlock s2 (pre'.length + 1) = s2 := by
            simp [coalesceBlock, hfwd, hc, hbk, ha]
          rw [hres]
          refine ⟨?_, rfl, rfl, hsz, rfl, Nat.le_refl _, rfl⟩
          rw [hbs]
          refine (chain'_sandwich_iff (pre' ++ [a]) (c :: post') _).mpr
            ⟨hpre, hpost, ?_, ?_⟩
          · intro x hx
            have hx' : a = x := by simpa using hx
            subst hx'
            exact Or.inl (Bool.not_eq_true _ ▸ ha)
          · intro z hz
            have hz' : c = z := by simpa using hz
            subst hz'
            exact Or.inr (Bool.not_eq_true _ ▸ hc)

theorem free_inv (s : AllocState) (p : Nat) (ps : List Nat)
    (hinv : Inv s (p :: ps)) :
    Inv (my_free s (some p)) ps ∧
    (my_free s (some p)).stats.split_count = s.stats.split_count ∧
    s.stats.coalesce_count ≤ (my_free s (some p)).stats.coalesce_count ∧
    (my_free s (some p)).heap_size = s.heap_size := by
  obtain ⟨htile, hsz, hch, hperm⟩ := hinv
  have hpmem : p ∈ usedPayloads s.blocks := hperm.subset (List.mem_cons_self p ps)
  obtain ⟨pre, b, post, hbs, hbf, hp⟩ := usedPayloadsFrom_mem s.blocks 0 p hpmem
  have hp' : p = blocksSize pre + headerSize := by omega
  have hbsize1 : 1 ≤ b.size := hsz b (by rw [hbs]; simp)
  have hhs := headerSize_eq
  have hvalid : isValidPointer s p = true := by
    have hlt : blocksSize pre + headerSize + b.size ≤ blocksSize s.blocks := by
      rw [hbs, blocksSize_append, blocksSize]
      omega
    simp only [isValidPointer, Bool.and_eq_true, decide_eq_true_eq]
    omega
  have hba : blockAtPayload s.blocks p = some pre.length := by
    rw [hbs, hp']
    exact blockAtPayload_at pre post b
  have hget : getB s.blocks pre.length = some b := by
    rw [hbs]; exact getB_append pre post b
  have heval : my_free s (some p) =
      coalesceBlock
        { s with
          blocks := setB s.blocks pre.length { b with is_free := true },
          stats := { s.stats with
            used_memory := s.stats.used_memory - b.size,
            free_memory := s.stats.free_memory + b.size,
            total_frees := s.stats.total_frees + 1,
            free_block_count := s.stats.free_block_count + 1 } } pre.length := by
    simp only [my_free, hvalid, if_true, hba, hget, hbf, Bool.false_eq_true,
      if_false, updateStatsAfterFree]
  have hsetb : setB s.blocks pre.length { b with is_free := true } =
      pre ++ (⟨b.size, true⟩ : MemoryBlock) :: post := by
    rw [hbs, setB_append]
  rw [hsetb] at heval
  have hch' : List.Chain' SepFree (pre ++ b :: post) := by rw [← hbs]; exact hch
  obtain ⟨hchpre, hchpost, hjl, hjr⟩ := (chain'_sandwich_iff pre post b).mp hch'
  have hsz2 : ∀ bb ∈ ({ s with
      blocks := pre ++ (⟨b.size, true⟩ : MemoryBlock) :: post,
      stats := { s.stats with
        used_memory := s.stats.used_memory - b.size,
        free_memory := s.stats.free_memory + b.size,
        total_frees := s.stats.total_frees + 1,
        free_block_count := s.stats.free_block_count + 1 } } : AllocState).blocks,
      1 ≤ bb.size := by
    intro bb hbb
    simp only [List.mem_append, List.mem_cons] at hbb
    rcases hbb with hbb | rfl | hbb
    · exact hsz bb (by rw [hbs]; simp [hbb])
    · simpa using hbsize1
    · exact hsz bb (by rw [hbs]; simp [hbb])
  obtain ⟨g1, g2, g3, g4, g5, g6, g7⟩ :=
    coalesce_spec _ pre post b.size rfl hchpre hchpost hsz2
  have hu2 : usedPayloads (pre ++ (⟨b.size, true⟩ : MemoryBlock) :: post) =
      usedPayloadsFrom 0 pre ++
        usedPayloadsFrom (0 + blocksSize pre + (headerSize + b.size)) post := by
    rw [usedPayloads, usedPayloadsFrom_append, usedPayloadsFrom]
    simp
  have hu : usedPayloads s.blocks =
      usedPayloadsFrom 0 pre ++ p ::
        usedPayloadsFrom (0 + blocksSize pre + (headerSize + b.size)) post := by
    rw [hbs, usedPayloads, usedPayloadsFrom_append, usedPayloadsFrom,
      if_neg (by simp [hbf])]
    have hemit : 0 + blocksSize pre + headerSize = p := by omega
    rw [hemit]
  have hperm' : ps.Perm (usedPayloadsFrom 0 pre ++
      usedPayloadsFrom (0 + blocksSize pre + (headerSize + b.size)) post) :=
    ((hu ▸ hperm).trans List.perm_middle).cons_inv
  rw [heval]
  refine ⟨⟨?_, g4, g1, ?_⟩, ?_, ?_, ?_⟩
  · rw [g2, g7]
    show blocksSize (pre ++ (⟨b.size, true⟩ : MemoryBlock) :: post) = s.heap_size
    rw [← htile, hbs]
    simp [blocksSize_append, blocksSize]
  · rw [g3]
    show ps.Perm (usedPayloads (pre ++ (⟨b.size, true⟩ : MemoryBlock) :: post))
    rw [hu2]
    exact hperm'
  · rw [g5]
  · exact g6
  · rw [g7]

theorem Inv_perm (s : AllocState) (ps qs : List Nat) (h : ps.Perm qs)
    (hi : Inv s qs) : Inv s ps :=
  ⟨hi.1, hi.2.1, hi.2.2.1, h.trans hi.2.2.2⟩

theorem allocAll_inv : ∀ (reqs : List Nat) (s : AllocState) (ps0 : List Nat)
    (s' : AllocState) (ps' : List Nat), Inv s ps0 →
    allocAll s reqs = some (s', ps') →
    Inv s' (ps' ++ ps0) ∧ s'.heap_size = s.heap_size := by
  intro reqs
  induction reqs with
  | nil =>
    intro s ps0 s' ps' hinv h
    simp only [allocAll, Option.some.injEq, Prod.mk.injEq] at h
    obtain ⟨rfl, rfl⟩ := h
    exact ⟨by simpa using hinv, rfl⟩
  | cons n rest ih =>
    intro s ps0 s' ps' hinv h
    simp only [allocAll] at h
    cases hm : my_malloc s n with
    | mk o s1 =>
      rw [hm] at h
      cases o with
      | none => simp at h
      | some p =>
        simp only [Option.map_eq_some'] at h
        obtain ⟨⟨s'', ps''⟩, hrec, heq⟩ := h
        injection heq with h1 h2
        subst h1
        subst h2
        obtain ⟨hinv1, hheap1⟩ := malloc_inv s n p s1 ps0 hinv hm
        obtain ⟨hinv2, hheap2⟩ := ih s1 (p :: ps0) s'' ps'' hinv1 hrec
        exact ⟨Inv_perm _ _ _ List.perm_middle.symm hinv2, hheap2.trans hheap1⟩

theorem freeAll_spec : ∀ (order : List Nat) (s : AllocState), Inv s order →
    Inv (freeAll s order) [] ∧
    (freeAll s order).stats.split_count = s.stats.split_count ∧
    s.stats.coalesce_count ≤ (freeAll s order).stats.coalesce_count ∧
    (freeAll s order).heap_size = s.heap_size := by
  intro order
  induction order with
  | nil => intro s hinv; exact ⟨hinv, rfl, Nat.le_refl _, rfl⟩
  | cons p rest ih =>
    intro s hinv
    obtain ⟨h1, h2, h3, h4⟩ := free_inv s p rest hinv
    obtain ⟨g1, g2, g3, g4⟩ := ih (my_free s (some p)) h1
    simp only [freeAll]
    exact ⟨g1, g2.trans h2, Nat.le_trans h3 g3, g4.trans h4⟩

theorem mkAllocator_inv (heap_size : Nat) (m : Nat → Nat)
    (hh : headerSize + MIN_BLOCK_SIZE ≤ heap_size) :
    Inv (mkAllocator heap_size m) [] := by
  have hhs := headerSize_eq
  have hmb := MIN_BLOCK_SIZE_eq
  refine ⟨?_, ?_, ?_, ?_⟩
  · show blocksSize [⟨heap_size - headerSize, true⟩] = heap_size
    simp [blocksSize]
    omega
  · intro b hb
    have hb' : b = ⟨heap_size - headerSize, true⟩ := by
      simpa [mkAllocator, initializeHeap] using hb
    subst hb'
    simp
    omega
  · exact List.chain'_singleton _
  · simp [mkAllocator, initializeHeap, usedPayloads, usedPayloadsFrom]

theorem inv_nil_blocks (s : AllocState) (h : Inv s []) (hh : 0 < s.heap_size) :
    s.blocks = [⟨s.heap_size - headerSize, true⟩] := by
  obtain ⟨htile, hsz, hch, hperm⟩ := h
  have hused : usedPayloads s.blocks = [] := hperm.symm.eq_nil
  have hall : ∀ b ∈ s.blocks, b.is_free = true :=
    usedPayloadsFrom_nil_free s.blocks 0 hused
  cases hbseq : s.blocks with
  | nil =>
    rw [hbseq, blocksSize] at htile
    omega
  | cons x rest =>
    cases rest with
    | nil =>
      rw [hbseq] at htile hall
      cases x with
      | mk xs xf =>
        have hxf : xf = true := by simpa using hall ⟨xs, xf⟩ (by simp)
        simp only [blocksSize] at htile
        simp only [List.cons.injEq, MemoryBlock.mk.injEq, and_true]
        exact ⟨by omega, hxf⟩
    | cons y rest2 =>
      exfalso
      rw [hbseq] at hch hall
      have hxy : SepFree x y := (List.chain'_cons.mp hch).1
      have hx : x.is_free = true := hall x (by simp)
      have hy : y.is_free = true := hall y (by simp)
      rcases hxy with hc | hc
      · rw [hx] at hc; cases hc
      · rw [hy] at hc; cases hc

/-- C6: for every sequence of successful allocations on a fresh engine
followed by frees of every returned pointer in any order, the final block
graph is a single free block of size `total_heap_size - header_size`, with
`split_count` unchanged by the frees and `coalesce_count` non-decreasing. -/
theorem coalesce_restores_whole_region (heap_size : Nat) (m : Nat → Nat)
    (reqs : List Nat) (s : AllocState) (ps order : List Nat)
    (hh : headerSize + MIN_BLOCK_SIZE ≤ heap_size)
    (halloc : allocAll (mkAllocator heap_size m) reqs = some (s, ps))
    (hperm : order.Perm ps) :
    (freeAll s order).blocks = [⟨heap_size - headerSize, true⟩] ∧
    (freeAll s order).stats.split_count = s.stats.split_count ∧
    s.stats.coalesce_count ≤ (freeAll s order).stats.coalesce_count := by
  have hinv0 := mkAllocator_inv heap_size m hh
  obtain ⟨hinv1, hheap1⟩ :=
    allocAll_inv reqs (mkAllocator heap_size m) [] s ps hinv0 halloc
  rw [List.append_nil] at hinv1
  have hinvo : Inv s order := Inv_perm s order ps hperm hinv1
  obtain ⟨hfin, h2, h3, h4⟩ := freeAll_spec order s hinvo
  have hheap : (freeAll s order).heap_size = heap_size := by
    rw [h4, hheap1]
    rfl
  have hpos : 0 < (freeAll s order).heap_size := by
    have := headerSize_eq
    have := MIN_BLOCK_SIZE_eq
    omega
  have hsingle := inv_nil_blocks (freeAll s order) hfin hpos
  rw [hheap] at hsingle
  exact ⟨hsingle, h2, h3⟩

/-- Witness for C6 at a concrete run: a fresh 256-byte engine, two
`allocate(20)` calls (payloads 32 and 88), then frees in reverse order. -/
theorem coalesce_restores_whole_region_witness :
    (freeAll c6mid [88, 32]).blocks = [⟨256 - headerSize, true⟩] ∧
    (freeAll c6mid [88, 32]).stats.split_count = c6mid.stats.split_count ∧
    c6mid.stats.coalesce_count ≤ (freeAll c6mid [88, 32]).stats.coalesce_count :=
  coalesce_restores_whole_region 256 (fun _ => 0) [20, 20] c6mid [32, 88]
    [88, 32] (by decide) rfl (by decide)

/-- C3: for every requested size > 0, `allocate` computes
`need = max(align_8(requested), MIN_BLOCK_SIZE)`, walks the chain from the
head and chooses the first block that is free with size ≥ need, marks it
not-free and returns its payload address; when no such block exists it
returns null (with an OutOfMemory diagnostic) and the state is unchanged. -/
theorem allocate_first_fit (s : AllocState) (n : Nat) (h : 0 < n) :
    mallocNeed n = max (alignSize n) MIN_BLOCK_SIZE ∧
    (∀ i, findFreeBlock (mallocNeed n) s.blocks = some i →
      ∃ b, getB s.blocks i = some b ∧ b.is_free = true ∧ mallocNeed n ≤ b.size ∧
        (∀ j bj, j < i → getB s.blocks j = some bj →
          ¬(bj.is_free = true ∧ mallocNeed n ≤ bj.size)) ∧
        (my_malloc s n).1 = some (blockStart s.blocks i + headerSize) ∧
        ∃ b', getB (my_malloc s n).2.blocks i = some b' ∧ b'.is_free = false) ∧
    (findFreeBlock (mallocNeed n) s.blocks = none → my_malloc s n = (none, s)) := by
  have hne : ¬n = 0 := Nat.pos_iff_ne_zero.mp h
  refine ⟨mallocNeed_eq_max n, ?_, ?_⟩
  · intro i hf
    obtain ⟨b, hget, hfree, hsize, hmin⟩ := findFreeBlock_some _ s.blocks i hf
    obtain ⟨pre, post, hbs, hlen⟩ := getB_decomp s.blocks i b hget
    subst hlen
    obtain ⟨g1, g2, g3, g4⟩ := mallocCore_spec s (mallocNeed n) pre post b hbs hf
    have hmal : my_malloc s n = mallocCore s (mallocNeed n) := by
      rw [my_malloc, if_neg hne]
    refine ⟨b, hget, hfree, hsize, hmin, ?_, ?_⟩
    · rw [hmal, g1, hbs, blockStart_append]
    · rw [hmal, g2]
      by_cases hs : b.size - mallocNeed n < headerSize + MIN_BLOCK_SIZE
      · rw [if_pos hs]
        exact ⟨{ b with is_free := false }, getB_append _ _ _, rfl⟩
      · rw [if_neg hs]
        exact ⟨⟨mallocNeed n, false⟩, getB_append _ _ _, rfl⟩
  · intro hf
    rw [my_malloc, if_neg hne, mallocCore, hf]

/-- Witness for C3: `allocate(100)` on a fresh 1024-byte engine picks the
single free block at index 0 and returns its payload offset. -/
theorem allocate_first_fit_witness :
    (my_malloc (mkAllocator 1024 (fun _ => 0)) 100).1 =
      some (blockStart (mkAllocator 1024 (fun _ => 0)).blocks 0 + headerSize) := by
  obtain ⟨-, h2, -⟩ := allocate_first_fit (mkAllocator 1024 (fun _ => 0)) 100
    (by decide)
  obtain ⟨b, -, -, -, -, h6, -⟩ := h2 0 (by decide)
  exact h6

/-- C5: whenever `allocate` fails because no free block in the chain has
size ≥ need, it returns null and the engine state is completely unchanged. -/
theorem allocate_oom_state_unchanged (s : AllocState) (n : Nat) (h0 : n ≠ 0)
    (h : ∀ b ∈ s.blocks, ¬(b.is_free = true ∧ mallocNeed n ≤ b.size)) :
    my_malloc s n = (none, s) := by
  rw [my_malloc, if_neg h0, mallocCore, findFreeBlock_none _ _ h]

/-- Witness for C5: `allocate(20)` on a fully used 48-byte heap. -/
theorem allocate_oom_state_unchanged_witness :
    my_malloc fullState 20 = (none, fullState) :=
  allocate_oom_state_unchanged fullState 20 (by decide) (by decide)

/-- C4: `free` mutates the engine only past its guards; in each guard case
(null payload; out-of-range payload, reported InvalidPointer; payload of an
already-free block, reported DoubleFree) the call returns with the block
graph and all counters unchanged. -/
theorem free_guard_cases (s : AllocState) :
    my_free s none = s ∧
    (∀ p, isValidPointer s p = false → my_free s (some p) = s) ∧
    (∀ p i b, blockAtPayload s.blocks p = some i → getB s.blocks i = some b →
      b.is_free = true → my_free s (some p) = s) := by
  refine ⟨rfl, ?_, ?_⟩
  · intro p hp
    simp [my_free, hp]
  · intro p i b h1 h2 h3
    by_cases hv : isValidPointer s p = true
    · simp [my_free, hv, h1, h2, h3]
    · have hv' : isValidPointer s p = false := by
        revert hv; cases isValidPointer s p <;> simp
      simp [my_free, hv']

/-- Witness for C4: null free, out-of-range free and double free on a
48-byte heap whose single block is free. -/
theorem free_guard_cases_witness :
    my_free freeState none = freeState ∧
    my_free freeState (some 5000) = freeState ∧
    my_free freeState (some 32) = freeState := by
  obtain ⟨h1, h2, h3⟩ := free_guard_cases freeState
  exact ⟨h1, h2 5000 (by decide), h3 32 0 ⟨16, true⟩ rfl rfl rfl⟩

/-- C7: for every valid payload of a live block and every new size > 0
whose aligned value fits the block, `reallocate` returns the same payload
and leaves the entire engine state unchanged. -/
theorem reallocate_shrink_in_place (s : AllocState) (p i n : Nat)
    (b : MemoryBlock)
    (hv : isValidPointer s p = true)
    (hidx : blockAtPayload s.blocks p = some i)
    (hb : getB s.blocks i = some b)
    (_hlive : b.is_free = false)
    (h0 : 0 < n)
    (hfit : alignSize n ≤ b.size) :
    my_realloc s (some p) n = (some p, s) := by
  have hne : ¬n = 0 := Nat.pos_iff_ne_zero.mp h0
  simp [my_realloc, hne, hv, hidx, hb, hfit]

/-- Witness for C7: shrink `reallocate(p, 8)` of the 16-byte live block of
a fully used 48-byte heap. -/
theorem reallocate_shrink_in_place_witness :
    my_realloc fullState (some 32) 8 = (some 32, fullState) :=
  reallocate_shrink_in_place fullState 32 0 8 ⟨16, false⟩ (by decide) rfl rfl
    rfl (by decide) (by decide)

/-- C9: for every requested size in `(SIZE_MAX - 7, SIZE_MAX]` the
computation `(size + ALIGNMENT - 1) & ~(ALIGNMENT - 1)` wraps modulo
`2 ^ 64` to 0, so `allocate` raises the request to `MIN_BLOCK_SIZE = 16`
and can succeed: on a fresh 1024-byte engine it returns the first payload
with a block of only 16 payload bytes. -/
theorem alignSize_wraparound (n : Nat) (h1 : U64 - 1 - 7 < n)
    (h2 : n ≤ U64 - 1) :
    alignSize n = 0 ∧ mallocNeed n = MIN_BLOCK_SIZE ∧
    (my_malloc (mkAllocator 1024 (fun _ => 0)) n).1 = some headerSize ∧
    (my_malloc (mkAllocator 1024 (fun _ => 0)) n).2.blocks =
      [⟨16, false⟩, ⟨944, true⟩] := by
  have hU : U64 = 18446744073709551616 := rfl
  have ha : alignSize n = 0 := by
    rw [alignSize]
    have h7 : ALIGNMENT - 1 = 7 := rfl
    rw [h7]
    have hmod : (n + 7) % U64 = n + 7 - U64 := by
      rw [hU] at h1 h2 ⊢; omega
    rw [hmod]
    have hb : n + 7 - U64 ≤ 6 := by rw [hU] at h1 h2 ⊢; omega
    generalize hk : n + 7 - U64 = k at hb ⊢
    interval_cases k <;> decide
  have hm : mallocNeed n = MIN_BLOCK_SIZE := by
    rw [mallocNeed_eq_max, ha]
    decide
  have hne : ¬n = 0 := by rw [hU] at h1; omega
  have hmal : my_malloc (mkAllocator 1024 (fun _ => 0)) n =
      mallocCore (mkAllocator 1024 (fun _ => 0)) MIN_BLOCK_SIZE := by
    rw [my_malloc, if_neg hne, hm]
  refine ⟨ha, hm, ?_, ?_⟩ <;> rw [hmal] <;> decide

/-- Witness for C9 at `size = SIZE_MAX`. -/
theorem alignSize_wraparound_witness :
    alignSize (U64 - 1) = 0 ∧ mallocNeed (U64 - 1) = MIN_BLOCK_SIZE ∧
    (my_malloc (mkAllocator 1024 (fun _ => 0)) (U64 - 1)).1 = some headerSize ∧
    (my_malloc (mkAllocator 1024 (fun _ => 0)) (U64 - 1)).2.blocks =
      [⟨16, false⟩, ⟨944, true⟩] :=
  alignSize_wraparound (U64 - 1) (by decide) (by decide)

/-- C10: every successful allocation ends by re-walking the chain and
overwriting `block_count` / `free_block_count` with the chain's actual
totals, whatever the counters held before; `free` and the realloc
forward-expand path do no such re-walk, as an engine whose `block_count`
was drifted to 7 (the chain really has 2 blocks) shows: after a coalescing
free the chain has 1 block but `block_count = 6`, and likewise after a
forward-expanding `reallocate`. -/
theorem allocation_recalculates_counts :
    (∀ (s : AllocState) (n p : Nat) (s' : AllocState),
      my_malloc s n = (some p, s') →
      s'.stats.block_count = s'.blocks.length ∧
      s'.stats.free_block_count =
        (s'.blocks.filter (fun b => b.is_free)).length) ∧
    ((my_free driftState (some 32)).blocks.length = 1 ∧
      (my_free driftState (some 32)).stats.block_count = 6) ∧
    ((my_realloc driftState (some 32) 24).2.blocks.length = 1 ∧
      (my_realloc driftState (some 32) 24).2.stats.block_count = 6) := by
  refine ⟨?_, by decide, by decide⟩
  intro s n p s' h
  obtain ⟨hn0, hcore⟩ := my_malloc_some s n p s' h
  cases hf : findFreeBlock (mallocNeed n) s.blocks with
  | none =>
    rw [mallocCore, hf] at hcore
    simp at hcore
  | some i =>
    simp only [mallocCore, hf] at hcore
    cases hg : getB (splitBlock s i (mallocNeed n)).blocks i with
    | none =>
      rw [hg] at hcore
      simp at hcore
    | some b =>
      rw [hg] at hcore
      injection hcore with hc1 hc2
      subst hc2
      constructor <;> simp [updateStatsAfterAlloc, recalculateBlockCounts]

/-- Witness for C10: the counters after `allocate(20)` on a fresh 256-byte
engine equal the chain's actual totals. -/
theorem allocation_recalculates_counts_witness :
    ((my_malloc (mkAllocator 256 (fun _ => 0)) 20).2).stats.block_count =
      ((my_malloc (mkAllocator 256 (fun _ => 0)) 20).2).blocks.length ∧
    ((my_malloc (mkAllocator 256 (fun _ => 0)) 20).2).stats.free_block_count =
      (((my_malloc (mkAllocator 256 (fun _ => 0)) 20).2).blocks.filter
        (fun b => b.is_free)).length :=
  allocation_recalculates_counts.1 (mkAllocator 256 (fun _ => 0)) 20 32 _ rfl

/-- C1: after `allocate(100)` on a fresh 1024-byte engine (the first split),
the G6 accounting identity fails on the code: the stats report
`used = 104`, `free = 888`, `block_count = 2`, so
`used + free + block_count * header_size = 1056 ≠ 1024 = total_heap_size`,
and `free_memory = 888` differs from 856, the actual sum of free-block
sizes — `splitBlock` never subtracts the new header from `free_memory`. -/
theorem accounting_identity_violated :
    c1state.stats.total_heap_size = 1024 ∧
    c1state.stats.used_memory = 104 ∧
    c1state.stats.free_memory = 888 ∧
    c1state.stats.block_count = 2 ∧
    c1state.stats.used_memory + c1state.stats.free_memory +
      c1state.stats.block_count * headerSize = 1056 ∧
    usedBlocksTotal c1state.blocks = 104 ∧
    freeBlocksTotal c1state.blocks = 856 ∧
    blocksSize c1state.blocks = 1024 := by
  decide

/-- C2 counterexample: `zeroed_allocate(1, 10)` on a fresh 1024-byte engine
whose region bytes read 255 returns the payload at offset 32 with rounded
size 16, but payload byte 10 (inside the rounded size) still reads 255. -/
theorem calloc_rounded_zeroing_fails :
    (my_calloc c2start 1 10).1 = some 32 ∧
    mallocNeed (1 * 10) = 16 ∧
    10 < 16 ∧
    (my_calloc c2start 1 10).2.mem (32 + 10) = 255 := by
  decide

/-- C2 amended: when `zeroed_allocate(count, elem_size)` returns a non-null
payload (and the product does not overflow), every byte of the first
`count * elem_size` payload bytes reads as zero; bytes beyond that, up to
the block's rounded size, are not written. -/
theorem calloc_zeroes_requested (s : AllocState) (count esize p : Nat)
    (s' : AllocState) (hnof : count * esize < U64)
    (h : my_calloc s count esize = (some p, s')) :
    ∀ j, j < count * esize → s'.mem (p + j) = 0 := by
  intro j hj
  simp only [my_calloc] at h
  rw [Nat.mod_eq_of_lt hnof] at h
  have hchk : ¬(count ≠ 0 ∧ count * esize / count ≠ esize) := by
    rintro ⟨hc, hd⟩
    exact hd (Nat.mul_div_cancel_left esize (Nat.pos_of_ne_zero hc))
  rw [if_neg hchk] at h
  cases hm : my_malloc s (count * esize) with
  | mk o s1 =>
    rw [hm] at h
    cases o with
    | none => simp at h
    | some q =>
      simp only [Option.some.injEq, Prod.mk.injEq] at h
      obtain ⟨rfl, rfl⟩ := h
      show (if q ≤ q + j ∧ q + j < q + count * esize then 0
            else s1.mem (q + j)) = 0
      rw [if_pos ⟨Nat.le_add_right q j, by omega⟩]

/-- Witness for the amended C2: byte 9 of `zeroed_allocate(1, 10)`'s payload
reads zero. -/
theorem calloc_zeroes_requested_witness :
    (my_calloc c2start 1 10).2.mem (32 + 9) = 0 :=
  calloc_zeroes_requested c2start 1 10 32 (my_calloc c2start 1 10).2
    (by decide) rfl 9 (by decide)

/-- C8 counterexample: moving from an engine whose `total_allocations` is 5
leaves the moved-from engine with null pointers and not owning, but its
counters are not zero: `total_allocations` is still 5. -/
theorem moved_from_counters_not_zero :
    (moveConstruct movedSource).2.heap_start = none ∧
    (moveConstruct movedSource).2.owns_memory = false ∧
    (moveConstruct movedSource).2.stats.total_allocations = 5 ∧
    (moveConstruct movedSource).2.stats.total_allocations ≠ 0 := by
  decide

/-- C8 amended: after move construction or move assignment the moved-from
engine has null region and chain pointers and does not own memory, while
its `heap_size_` and accounting record retain their previous values; the
constructed/assigned engine receives every field of the source. -/
theorem moved_from_inert_stats_kept (e t : MemoryAllocatorFields) :
    (moveConstruct e).1 = e ∧
    (moveConstruct e).2.heap_start = none ∧
    (moveConstruct e).2.heap_end = none ∧
    (moveConstruct e).2.free_list = none ∧
    (moveConstruct e).2.owns_memory = false ∧
    (moveConstruct e).2.stats = e.stats ∧
    (moveConstruct e).2.heap_size = e.heap_size ∧
    (moveAssign t e).1 = e ∧
    (moveAssign t e).2 = (moveConstruct e).2 :=
  ⟨rfl, rfl, rfl, rfl, rfl, rfl, rfl, rfl, rfl⟩

end CustomAllocator
